import Mathlib

/-!
Verification of the pytypes generator core of the wake repository
(file src/woke/development/pytypes_generator.py), as a shallow embedding
in Lean.  Each definition mirrors one Python function or data structure of
the source module; the claim theorems at the end of the file settle the
frozen claims against these definitions.
-/

set_option maxRecDepth 4000

/-! ## String helpers

The Python code uses `str.startswith`, `str.endswith` and lexicographic
string comparison.  We model strings by their character lists and define
prefix and suffix tests recursively so that proofs can unfold them. -/

/-- Character-list prefix test: `beginsWithChars p s` holds when `p` is a
prefix of `s`.  Models Python `str.startswith` after conversion to lists. -/
def beginsWithChars : List Char → List Char → Bool
  | [], _ => true
  | _ :: _, [] => false
  | p :: ps, c :: cs => p == c && beginsWithChars ps cs

/-- Models Python `s.startswith(pre)`. -/
def strStartsWith (s pre : String) : Bool :=
  beginsWithChars pre.data s.data

/-- Models Python `s.endswith(post)`: the reversed suffix is a prefix of the
reversed string. -/
def strEndsWith (s post : String) : Bool :=
  beginsWithChars post.data.reverse s.data.reverse

/-- Models Python `s[n:]` for a nonnegative `n` (drop the first `n`
characters). -/
def strDrop (s : String) (n : Nat) : String :=
  String.mk (s.data.drop n)

/-- Helper for `splitOnSpace`: the accumulator holds the current chunk in
reverse. -/
def splitOnSpaceAux : List Char → List Char → List String
  | [], acc => [String.mk acc.reverse]
  | c :: cs, acc =>
    if c == ' ' then String.mk acc.reverse :: splitOnSpaceAux cs []
    else splitOnSpaceAux cs (c :: acc)

/-- Models Python `s.split(" ")`: split on every single space, keeping empty
chunks. -/
def splitOnSpace (s : String) : List String :=
  splitOnSpaceAux s.data []

/-- Python lexicographic `<` on strings (by code point), used by `heapq`
on source-unit names in `TypeGenerator.generate_types`. -/
def charListLt : List Char → List Char → Bool
  | [], [] => false
  | [], _ :: _ => true
  | _ :: _, [] => false
  | a :: as, b :: bs => a.toNat < b.toNat || (a == b && charListLt as bs)

/-- Maximum length of the strings in a list; used to bound the rename loop. -/
def maxLen (l : List String) : Nat :=
  l.foldr (fun s acc => max s.length acc) 0

lemma length_le_maxLen {s : String} {l : List String} (h : s ∈ l) :
    s.length ≤ maxLen l := by
  induction l with
  | nil => cases h
  | cons a t ih =>
    rcases List.mem_cons.mp h with rfl | hmem
    · exact le_max_left _ _
    · exact le_trans (ih hmem) (le_max_right _ _)

/-! ## Hexadecimal and decimal literal parsing

Models the calls `int(opcode[4:])` and `int(opcodes_spl[i + 1], 16)` in
`_parse_opcodes` and `bytes.fromhex` in `generate_contract_template`.
Only the digit forms produced by solc output are modelled (no sign,
underscore or whitespace handling). -/

/-- Value of one hexadecimal digit character, if any. -/
def hexDigitVal? (c : Char) : Option Nat :=
  let n := c.toNat
  if 48 ≤ n && n ≤ 57 then some (n - 48)
  else if 97 ≤ n && n ≤ 102 then some (n - 87)
  else if 65 ≤ n && n ≤ 70 then some (n - 55)
  else none

/-- Value of one decimal digit character, if any. -/
def decDigitVal? (c : Char) : Option Nat :=
  let n := c.toNat
  if 48 ≤ n && n ≤ 57 then some (n - 48) else none

/-- Fold a digit list in a given base; `none` if a character is invalid. -/
def digitsToNat? (digit : Char → Option Nat) (base : Nat) : List Char → Option Nat → Option Nat
  | [], acc => acc
  | c :: cs, acc =>
    match acc, digit c with
    | some a, some v => digitsToNat? digit base cs (some (a * base + v))
    | _, _ => none

/-- Python `int(s)` restricted to plain decimal digit strings. -/
def decStrToNat? (s : String) : Option Nat :=
  if s.data.isEmpty then none else digitsToNat? decDigitVal? 10 s.data (some 0)

/-- Python `int(s, 16)` restricted to hex digit strings with an optional
`0x`/`0X` prefix. -/
def hexStrToNat? (s : String) : Option Nat :=
  let s' := if strStartsWith s "0x" || strStartsWith s "0X" then strDrop s 2 else s
  if s'.data.isEmpty then none else digitsToNat? hexDigitVal? 16 s'.data (some 0)

/-! ## Bytecode opcode pass

Embedding of `_parse_opcodes` (pytypes_generator.py lines 71-91): walk the
space-separated disassembly; a non-`PUSH` opcode occupies 1 byte; a
`PUSH<n>` opcode occupies `n + 1` bytes and its following token is consumed
as its literal operand instead of being counted as an instruction.
The Python `ignore` flag together with the indexed lookahead
`opcodes_spl[i + 1]` is rendered as direct recursion consuming the operand
token.  Failure of `int(...)` (malformed size or operand, or a missing
operand token) is rendered as `none`. -/

def parseOpcodesAux : Nat → List String → Option (List (Nat × String × Nat × Option Nat))
  | _, [] => some []
  | pc, op :: rest =>
    if !(strStartsWith op "PUSH") then
      (parseOpcodesAux (pc + 1) rest).map (fun l => (pc, op, 1, none) :: l)
    else
      match decStrToNat? (strDrop op 4) with
      | none => none
      | some k =>
        match rest with
        | [] => none
        | operand :: rest' =>
          match hexStrToNat? operand with
          | none => none
          | some arg =>
            (parseOpcodesAux (pc + (k + 1)) rest').map
              (fun l => (pc, op, k + 1, some arg) :: l)

/-- Embedding of `_parse_opcodes`: program counter, opcode string, size in
bytes, and the push argument when present. -/
def parseOpcodes (opcodes : String) : Option (List (Nat × String × Nat × Option Nat)) :=
  parseOpcodesAux 0 (splitOnSpace opcodes)

/-- Program counters of a parsed opcode table. -/
def opcodePcs (table : List (Nat × String × Nat × Option Nat)) : List Nat :=
  table.map (fun e => e.1)

/-! ## Type mapper

Embedding of `TypeGenerator.parse_type_and_import`
(pytypes_generator.py lines 790-837).  The solc type descriptors
(`woke.ast.types`) are rendered as the inductive `Ty`; a struct node
carries its member list (name, member type, solc type string, mirroring
`VariableDeclaration.name`, `.type` and `.type_string`).  Struct, enum and
contract nodes carry the generated name of the declaration (the result of
`self.get_name(...)`, studied separately by the sanitizer embedding) and,
for struct and enum, the generated name of the enclosing contract when the
declaration is nested in one (`ir_node.parent` being a
`ContractDefinition`).  The import side effects of the Python method are
not modelled; only the returned type expression string is. -/

inductive Ty where
  | addressTy
  | boolTy
  | stringTy
  | bytesTy
  | funcTy
  | fixedBytes (n : Nat)
  | intTy (bits : Nat)
  | uintTy (bits : Nat)
  | array (base : Ty) (len : Option Nat)
  | mapping (key value : Ty)
  | structTy (name : String) (containerName : Option String)
      (members : List (String × Ty × String))
  | enumTy (name : String) (containerName : Option String)
  | contractTy (name : String)
  | udvt (underlying : Ty)

/-- Qualification `ContainerName.TypeName` applied when a struct or enum is
declared inside a contract, as in `parse_type_and_import`. -/
def qualifiedTypeName (name : String) (containerName : Option String) : String :=
  match containerName with
  | some parent => parent ++ "." ++ name
  | none => name

/-- Embedding of `parse_type_and_import(expr, return_types)`.  The boolean
selects the return-position entry of `__sol_to_py_lookup` (index 1) versus
the parameter-position entry (index 0). -/
def mapTypeStr (returnTypes : Bool) : Ty → String
  | .structTy name containerName _ => qualifiedTypeName name containerName
  | .enumTy name containerName => qualifiedTypeName name containerName
  | .udvt underlying => mapTypeStr returnTypes underlying
  | .array base none => "List[" ++ mapTypeStr returnTypes base ++ "]"
  | .array base (some n) =>
    if n ≤ 32 then "List" ++ toString n ++ "[" ++ mapTypeStr returnTypes base ++ "]"
    else "Annotated[List[" ++ mapTypeStr returnTypes base ++ "], Length(" ++ toString n ++ ")]"
  | .contractTy name => name
  | .fixedBytes n => "bytes" ++ toString n
  | .intTy bits => "int" ++ toString bits
  | .uintTy bits => "uint" ++ toString bits
  | .mapping key value =>
    "Dict[" ++ mapTypeStr returnTypes key ++ ", " ++ mapTypeStr returnTypes value ++ "]"
  | .addressTy => if returnTypes then "Address" else "Union[Account, Address]"
  | .stringTy => "str"
  | .boolTy => "bool"
  | .bytesTy => if returnTypes then "bytearray" else "Union[bytearray, bytes]"
  | .funcTy => "Callable"

/-! ## Getter synthesis for a struct-typed public state variable

Embedding of the nested helper `get_struct_return_list` of
`TypeGenerator.generate_getter_for_state_var`
(pytypes_generator.py lines 874-908) and of the path its outer helper
`generate_getter_helper` takes for a state variable whose type is a struct
at depth 0 (lines 922-936 and 1050): nothing is appended to the parameter
list (`use_parse` stays False) and `returns` is set to the result of
`get_struct_return_list`. -/

/-- The `isinstance(member.type, types.Mapping) or isinstance(member.type,
types.Array)` exclusion test of `get_struct_return_list`. -/
def isMappingOrArray : Ty → Bool
  | .mapping _ _ => true
  | .array _ _ => true
  | _ => false

/-- One member's contribution to `non_excluded`: the mapped type in return
position, paired with the member's solc type string; `none` for mapping-
and array-typed members. -/
def memberReturnEntry (m : String × Ty × String) : Option (String × String) :=
  if isMappingOrArray m.2.1 then none
  else some (mapTypeStr true m.2.1, m.2.2)

/-- Embedding of `get_struct_return_list`.  Arguments: the struct's
generated name, the generated name of its enclosing contract (when nested),
its member list, and the type string of the struct-typed variable
declaration (`struct_type_name.type_string`). -/
def getStructReturnList (name : String) (containerName : Option String)
    (members : List (String × Ty × String)) (structTypeString : String) :
    List (String × String) :=
  let nonExcluded := members.filterMap memberReturnEntry
  if members.length = nonExcluded.length then
    [(qualifiedTypeName name containerName, structTypeString)]
  else nonExcluded

/-- The struct-at-depth-0 path of `generate_getter_for_state_var`:
generated parameter list (empty) and the `returns` list. -/
def getterForStructVar (name : String) (containerName : Option String)
    (members : List (String × Ty × String)) (structTypeString : String) :
    List String × List (String × String) :=
  ([], getStructReturnList name containerName members structTypeString)

/-- Embedding of the `returns_str` computation of
`generate_getter_for_state_var` (lines 1052-1057). -/
def returnsStrOf (returns : List (String × String)) : String :=
  if returns.length = 0 then "None"
  else if returns.length = 1 then (returns.headD ("", "")).1
  else "Tuple[" ++ String.intercalate ", " (returns.map (fun r => r.1)) ++ "]"

lemma filterMap_memberReturnEntry_length_eq_iff
    (members : List (String × Ty × String)) :
    (members.filterMap memberReturnEntry).length = members.length ↔
      ∀ m ∈ members, isMappingOrArray m.2.1 = false := by
  induction members with
  | nil => simp
  | cons m t ih =>
    by_cases hc : isMappingOrArray m.2.1 = true
    · have hnone : memberReturnEntry m = none := by
        simp [memberReturnEntry, hc]
      have hle : (t.filterMap memberReturnEntry).length ≤ t.length :=
        List.length_filterMap_le _ _
      simp only [List.filterMap_cons, hnone, List.length_cons]
      constructor
      · intro hlen
        omega
      · intro hall
        have := hall m (List.mem_cons_self m t)
        rw [hc] at this
        cases this
    · have hsome : memberReturnEntry m = some (mapTypeStr true m.2.1, m.2.2) := by
        simp [memberReturnEntry, hc]
      simp only [List.filterMap_cons, hsome, List.length_cons]
      constructor
      · intro hlen
        intro x hx
        rcases List.mem_cons.mp hx with rfl | hxt
        · simpa using hc
        · exact (ih.mp (by omega)) x hxt
      · intro hall
        have hrest : ∀ m' ∈ t, isMappingOrArray m'.2.1 = false := fun m' hm' =>
          hall m' (List.mem_cons_of_mem _ hm')
        have := ih.mpr hrest
        omega

/-! ## Name sanitizer

Embedding of class `NameSanitizer` (pytypes_generator.py lines 1634-1880).
A declaration is modelled by a surrogate identity (`declId`, standing for
the Python object identity used as dict key), its original `name`, and the
kind of its structural parent, which in `sanitize_name` selects the scope.
A `ParameterList` parent is collapsed into the kind of its own parent,
matching the dispatch on `parent.parent` in the source. -/

inductive DeclParent where
  | sourceUnit
  | contract (cid : Nat)
  | structDef (sid : Nat)
  | enumDef (eid : Nat)
  | paramListOfFunction (fid : Nat)
  | paramListOfEvent (eid : Nat)
  | paramListOfError (eid : Nat)
  | paramListOfOther
  | otherParent
deriving DecidableEq

structure Decl where
  declId : Nat
  name : String
  parent : DeclParent
deriving DecidableEq

/-- The scope that `sanitize_name` selects from the declaration's parent. -/
inductive ScopeKey where
  | globalKey
  | contractKey (cid : Nat)
  | functionKey (fid : Nat)
  | structKey (sid : Nat)
  | eventKey (eid : Nat)
  | errorKey (eid : Nat)
  | enumKey (eid : Nat)
deriving DecidableEq

/-- Scope selection of `sanitize_name` (lines 1838-1870); `none` models the
two `NotImplementedError` branches. -/
def scopeKeyOf (d : Decl) : Option ScopeKey :=
  match d.parent with
  | .sourceUnit => some .globalKey
  | .contract cid => some (.contractKey cid)
  | .structDef sid => some (.structKey sid)
  | .enumDef eid => some (.enumKey eid)
  | .paramListOfFunction fid => some (.functionKey fid)
  | .paramListOfEvent eid => some (.eventKey eid)
  | .paramListOfError eid => some (.errorKey eid)
  | .paramListOfOther => none
  | .otherParent => none

/-- The `__global_reserved` set of `NameSanitizer.__init__` (lines
1652-1694): the literal base set plus `uint8..uint256`, `int8..int256`,
`bytes1..bytes32` and `List1..List32`. -/
def globalReservedBase : List String :=
  ["Dict", "List", "Mapping", "Set", "Tuple", "Union", "Annotated", "Optional",
   "Literal", "Callable", "Path", "bytearray", "IntEnum", "dataclasses",
   "overload", "Contract", "Library", "Address", "Account", "Chain",
   "RequestType", "TransactionRevertedError", "TransactionAbc",
   "LegacyTransaction", "Eip2930Transaction", "Eip1559Transaction",
   "ValueRange", "Length", "bytes", "int", "uint", "str", "bool"]

def globalReserved : List String :=
  globalReservedBase
    ++ (List.range 32).map (fun i => "uint" ++ toString (8 * (i + 1)))
    ++ (List.range 32).map (fun i => "int" ++ toString (8 * (i + 1)))
    ++ (List.range 32).map (fun i => "bytes" ++ toString (i + 1))
    ++ (List.range 32).map (fun i => "List" ++ toString (i + 1))

/-- The `__contract_reserved` set (lines 1696-1718). -/
def contractReserved : List String :=
  ["_abi", "_deployment_code", "_address", "_chain", "_label",
   "_get_deployment_code", "_deploy", "_execute", "_library_id",
   "_prepare_tx_params", "address", "label", "balance", "code", "chain",
   "nonce", "call", "transact", "estimate", "deploy", "deployment_code"]

/-- The `__function_reserved` set (lines 1719-1735). -/
def functionReserved : List String :=
  ["self", "cls", "from_", "value", "gas_limit", "return_tx", "chain", "to",
   "request_type", "gas_price", "max_fee_per_gas", "max_priority_fee_per_gas",
   "access_list", "block", "confirmations"]

def structReserved : List String := ["original_name"]

def eventReserved : List String := ["_abi", "selector", "original_name"]

def errorReserved : List String := ["_abi", "selector", "original_name"]

def enumReserved : List String := []

/-- The Python keywords tested by `keyword.iskeyword` (Python 3.7+). -/
def pythonKeywords : List String :=
  ["False", "None", "True", "and", "as", "assert", "async", "await", "break",
   "class", "continue", "def", "del", "elif", "else", "except", "finally",
   "for", "from", "global", "if", "import", "in", "is", "lambda", "nonlocal",
   "not", "or", "pass", "raise", "return", "try", "while", "with", "yield"]

/-- Models `keyword.iskeyword(name)`. -/
def isPyKeyword (name : String) : Bool :=
  pythonKeywords.contains name

/-- The dunder test shared by `_check_contract`, `_check_struct`,
`_check_event`, `_check_error` and `_check_enum`:
`name.startswith("__") and name.endswith("__") and not
name.endswith("___")`. -/
def isUnescapedDunder (name : String) : Bool :=
  strStartsWith name "__" && strEndsWith name "__" && !(strEndsWith name "___")

/-- A rename table: Python `Dict[DeclarationAbc, str]` as an insertion-
ordered association list keyed by declarations. -/
def tableFind (d : Decl) : List (Decl × String) → Option String
  | [] => none
  | p :: rest => if p.1 = d then some p.2 else tableFind d rest

/-- The chosen identifiers stored in a rename table (`renames.values()`). -/
def tableValues (t : List (Decl × String)) : List String :=
  t.map (fun p => p.2)

/-- Python `==` between a `DeclarationAbc` dict key and a `str`.
`DeclarationAbc` (defined outside this module) does not implement equality
against strings, so object equality across the two types is always False.
This is the comparison performed elementwise by
`name in set(self.__global_renames)` in `_check_contract`,
`_check_function`, `_check_struct`, `_check_event`, `_check_error` and
`_check_enum`, where `__global_renames` is keyed by declarations: note the
missing `.values()` that `_check_global` has. -/
def declKeyEqName (_d : Decl) (_s : String) : Bool :=
  false

/-- Models `name in set(self.__global_renames)`: membership of the string
among the declaration keys of the global rename table. -/
def memRenameKeys (t : List (Decl × String)) (name : String) : Bool :=
  t.any (fun p => declKeyEqName p.1 name)

/-- Lookup in a `defaultdict(dict)` keyed by the owning definition's
surrogate id; a missing key yields the empty table. -/
def assocFind (k : Nat) : List (Nat × List (Decl × String)) → List (Decl × String)
  | [] => []
  | p :: rest => if p.1 = k then p.2 else assocFind k rest

/-- Store a table under a key in a `defaultdict(dict)`. -/
def assocSet (k : Nat) (t : List (Decl × String)) :
    List (Nat × List (Decl × String)) → List (Nat × List (Decl × String))
  | [] => [(k, t)]
  | p :: rest => if p.1 = k then (k, t) :: rest else p :: assocSet k t rest

/-- The mutable state of a `NameSanitizer` instance: one rename table per
scope, the keyed ones grouped by their owning definition. -/
structure SanState where
  globalRenames : List (Decl × String)
  contractRenames : List (Nat × List (Decl × String))
  functionRenames : List (Nat × List (Decl × String))
  structRenames : List (Nat × List (Decl × String))
  eventRenames : List (Nat × List (Decl × String))
  errorRenames : List (Nat × List (Decl × String))
  enumRenames : List (Nat × List (Decl × String))
deriving DecidableEq

/-- A fresh `NameSanitizer()`: all rename tables empty. -/
def sanInit : SanState :=
  ⟨[], [], [], [], [], [], []⟩

/-- Models `NameSanitizer.clear_global_renames` (lines 1835-1836), called
after each source unit in `generate_types` (line 1419). -/
def clearGlobalRenames (st : SanState) : SanState :=
  { st with globalRenames := [] }

/-- Embedding of `NameSanitizer._check_global` (lines 1749-1754).  Note
that this check, and only this one, compares against
`self.__global_renames.values()`. -/
def checkGlobal (st : SanState) (name : String) : Bool :=
  globalReserved.contains name
  || (tableValues st.globalRenames).contains name
  || isPyKeyword name

/-- Embedding of `NameSanitizer._check_contract` (lines 1756-1768). -/
def checkContract (st : SanState) (cid : Nat) (name : String) : Bool :=
  globalReserved.contains name
  || memRenameKeys st.globalRenames name
  || contractReserved.contains name
  || (tableValues (assocFind cid st.contractRenames)).contains name
  || isPyKeyword name
  || isUnescapedDunder name

/-- Embedding of `NameSanitizer._check_function` (lines 1770-1777).  The
source has no dunder clause in this check. -/
def checkFunction (st : SanState) (fid : Nat) (name : String) : Bool :=
  globalReserved.contains name
  || memRenameKeys st.globalRenames name
  || functionReserved.contains name
  || (tableValues (assocFind fid st.functionRenames)).contains name
  || isPyKeyword name

/-- Embedding of `NameSanitizer._check_struct` (lines 1779-1791). -/
def checkStruct (st : SanState) (sid : Nat) (name : String) : Bool :=
  globalReserved.contains name
  || memRenameKeys st.globalRenames name
  || structReserved.contains name
  || (tableValues (assocFind sid st.structRenames)).contains name
  || isPyKeyword name
  || isUnescapedDunder name

/-- Embedding of `NameSanitizer._check_event` (lines 1793-1805). -/
def checkEvent (st : SanState) (eid : Nat) (name : String) : Bool :=
  globalReserved.contains name
  || memRenameKeys st.globalRenames name
  || eventReserved.contains name
  || (tableValues (assocFind eid st.eventRenames)).contains name
  || isPyKeyword name
  || isUnescapedDunder name

/-- Embedding of `NameSanitizer._check_error` (lines 1807-1819). -/
def checkError (st : SanState) (eid : Nat) (name : String) : Bool :=
  globalReserved.contains name
  || memRenameKeys st.globalRenames name
  || errorReserved.contains name
  || (tableValues (assocFind eid st.errorRenames)).contains name
  || isPyKeyword name
  || isUnescapedDunder name

/-- Embedding of `NameSanitizer._check_enum` (lines 1821-1833). -/
def checkEnum (st : SanState) (eid : Nat) (name : String) : Bool :=
  globalReserved.contains name
  || memRenameKeys st.globalRenames name
  || enumReserved.contains name
  || (tableValues (assocFind eid st.enumRenames)).contains name
  || isPyKeyword name
  || isUnescapedDunder name

/-- The rename table `sanitize_name` selects for a scope. -/
def scopeTable (st : SanState) : ScopeKey → List (Decl × String)
  | .globalKey => st.globalRenames
  | .contractKey cid => assocFind cid st.contractRenames
  | .functionKey fid => assocFind fid st.functionRenames
  | .structKey sid => assocFind sid st.structRenames
  | .eventKey eid => assocFind eid st.eventRenames
  | .errorKey eid => assocFind eid st.errorRenames
  | .enumKey eid => assocFind eid st.enumRenames

/-- The check function `sanitize_name` selects for a scope. -/
def scopeCheck (st : SanState) : ScopeKey → String → Bool
  | .globalKey => checkGlobal st
  | .contractKey cid => checkContract st cid
  | .functionKey fid => checkFunction st fid
  | .structKey sid => checkStruct st sid
  | .eventKey eid => checkEvent st eid
  | .errorKey eid => checkError st eid
  | .enumKey eid => checkEnum st eid

/-- The strings the selected check can match by plain set membership (the
reserved tables, the scope table's values, and the Python keywords).  Used
only to bound the underscore-appending loop; the dunder test is handled
separately. -/
def scopeBlocked (st : SanState) : ScopeKey → List String
  | .globalKey => globalReserved ++ tableValues st.globalRenames ++ pythonKeywords
  | .contractKey cid =>
    globalReserved ++ contractReserved
      ++ tableValues (assocFind cid st.contractRenames) ++ pythonKeywords
  | .functionKey fid =>
    globalReserved ++ functionReserved
      ++ tableValues (assocFind fid st.functionRenames) ++ pythonKeywords
  | .structKey sid =>
    globalReserved ++ structReserved
      ++ tableValues (assocFind sid st.structRenames) ++ pythonKeywords
  | .eventKey eid =>
    globalReserved ++ eventReserved
      ++ tableValues (assocFind eid st.eventRenames) ++ pythonKeywords
  | .errorKey eid =>
    globalReserved ++ errorReserved
      ++ tableValues (assocFind eid st.errorRenames) ++ pythonKeywords
  | .enumKey eid =>
    globalReserved ++ enumReserved
      ++ tableValues (assocFind eid st.enumRenames) ++ pythonKeywords

/-- Write back the selected scope table after an insertion. -/
def scopeUpdate (st : SanState) (k : ScopeKey) (t : List (Decl × String)) : SanState :=
  match k with
  | .globalKey => { st with globalRenames := t }
  | .contractKey cid => { st with contractRenames := assocSet cid t st.contractRenames }
  | .functionKey fid => { st with functionRenames := assocSet fid t st.functionRenames }
  | .structKey sid => { st with structRenames := assocSet sid t st.structRenames }
  | .eventKey eid => { st with eventRenames := assocSet eid t st.eventRenames }
  | .errorKey eid => { st with errorRenames := assocSet eid t st.errorRenames }
  | .enumKey eid => { st with enumRenames := assocSet eid t st.enumRenames }

/-- The `while check(new_name): new_name = new_name + "_"` loop of
`sanitize_name` (lines 1876-1877), with an explicit fuel.  The fuel is an
artifact of totality: `sanitizeName` passes a fuel large enough that the
loop always stops with the check False first (see
`escapeLoop_check_false`), so the fueled loop and the unbounded Python
loop agree. -/
def escapeLoop (check : String → Bool) : Nat → String → String
  | 0, name => name
  | fuel + 1, name =>
    if check name then escapeLoop check fuel (name ++ "_") else name

/-- The result of the underscore-appending loop on a fresh declaration
name, with fuel that always suffices (see `freshName_check_false`). -/
def freshName (st : SanState) (k : ScopeKey) (name : String) : String :=
  escapeLoop (scopeCheck st k) (maxLen (scopeBlocked st k) + name.length + 3) name

/-- Embedding of `NameSanitizer.sanitize_name` (lines 1838-1880): select
the scope from the structural parent, return the cached rename when
present, otherwise append underscores until the scope's check passes and
record the result.  The `error` value models the `NotImplementedError`
branches. -/
def sanitizeName (st : SanState) (d : Decl) : Except String (String × SanState) :=
  match scopeKeyOf d with
  | none => .error "NotImplementedError"
  | some k =>
    match tableFind d (scopeTable st k) with
    | some n => .ok (n, st)
    | none =>
      .ok (freshName st k d.name,
        scopeUpdate st k (scopeTable st k ++ [(d, freshName st k d.name)]))

deriving instance DecidableEq for Except

/-! ## Sanitizer metatheory

Lemmas about the underscore-appending loop and the per-scope checks,
leading to the idempotence, uniqueness and dunder-exclusion theorems. -/

lemma memRenameKeys_false (t : List (Decl × String)) (name : String) :
    memRenameKeys t name = false := by
  simp [memRenameKeys, declKeyEqName]

lemma strEndsWith_append_underscore {name : String}
    (h : strEndsWith name "__" = true) :
    strEndsWith (name ++ "_") "___" = true := by
  have hdata : (name ++ "_").data = name.data ++ ['_'] := String.data_append name "_"
  have h2 : ("__" : String).data.reverse = ['_', '_'] := rfl
  have h3 : ("___" : String).data.reverse = ['_', '_', '_'] := rfl
  unfold strEndsWith at h ⊢
  rw [h2] at h
  rw [h3, hdata, List.reverse_append]
  show beginsWithChars ['_', '_', '_'] ('_' :: name.data.reverse) = true
  simpa [beginsWithChars] using h

lemma isUnescapedDunder_append {name : String}
    (h : isUnescapedDunder name = true) :
    isUnescapedDunder (name ++ "_") = false := by
  have h2 : strEndsWith name "__" = true := by
    unfold isUnescapedDunder at h
    simp only [Bool.and_eq_true] at h
    exact h.1.2
  have h3 := strEndsWith_append_underscore h2
  unfold isUnescapedDunder
  rw [h3]
  simp

lemma length_append_underscore (name : String) :
    (name ++ "_").length = name.length + 1 := by
  rw [String.length_append]
  rfl

/-- The rename loop always stops with the check False, provided the fuel
covers the longest blocked string: every string the check accepts is
either in the finite blocked list or an unescaped dunder, and one more
underscore permanently leaves both conditions once the name is longer than
every blocked string. -/
lemma escapeLoop_check_false (check : String → Bool) (blocked : List String)
    (hb : ∀ s, check s = true → s ∈ blocked ∨ isUnescapedDunder s = true) :
    ∀ fuel name, maxLen blocked + 3 ≤ fuel + name.length → 2 ≤ fuel →
      check (escapeLoop check fuel name) = false := by
  intro fuel
  induction fuel with
  | zero =>
    intro name _ h2
    omega
  | succ f ih =>
    intro name hfuel h2
    by_cases hc : check name = true
    · by_cases hlen : name.length ≤ maxLen blocked
      · have hfuel' : maxLen blocked + 3 ≤ f + (name ++ "_").length := by
          rw [length_append_underscore]
          omega
        have h2' : 2 ≤ f := by omega
        simp only [escapeLoop, hc, if_true]
        exact ih (name ++ "_") hfuel' h2'
      · push_neg at hlen
        have hdun : isUnescapedDunder name = true := by
          rcases hb name hc with hmem | hd
          · exact absurd (length_le_maxLen hmem) (by omega)
          · exact hd
        have hnext : check (name ++ "_") = false := by
          by_contra hcc
          rw [Bool.not_eq_false] at hcc
          rcases hb _ hcc with hmem | hd
          · have hle := length_le_maxLen hmem
            rw [length_append_underscore] at hle
            omega
          · rw [isUnescapedDunder_append hdun] at hd
            cases hd
        obtain ⟨f', rfl⟩ : ∃ f', f = f' + 1 := ⟨f - 1, by omega⟩
        simp [escapeLoop, hc, hnext]
    · rw [Bool.not_eq_true] at hc
      simp [escapeLoop, hc]

/-- Soundness of `scopeBlocked`: everything a scope check accepts is in the
blocked list or an unescaped dunder (the global-renames key test of the
non-global checks matches nothing, see `declKeyEqName`). -/
lemma scopeCheck_true_mem_or_dunder (st : SanState) (k : ScopeKey) (s : String)
    (h : scopeCheck st k s = true) :
    s ∈ scopeBlocked st k ∨ isUnescapedDunder s = true := by
  cases k with
  | globalKey =>
    simp only [scopeCheck, checkGlobal, Bool.or_eq_true, isPyKeyword] at h
    rcases h with (h | h) | h
    · exact Or.inl (by simp [scopeBlocked]; exact Or.inl (by simpa using h))
    · exact Or.inl (by simp [scopeBlocked]; exact Or.inr (Or.inl (by simpa using h)))
    · exact Or.inl (by simp [scopeBlocked]; exact Or.inr (Or.inr (by simpa using h)))
  | contractKey cid =>
    simp only [scopeCheck, checkContract, Bool.or_eq_true, isPyKeyword,
      memRenameKeys_false, Bool.false_eq_true, false_or] at h
    rcases h with ((((h | h) | h) | h) | h)
    · exact Or.inl (by simp [scopeBlocked]; exact Or.inl (by simpa using h))
    · exact Or.inl (by simp [scopeBlocked]; exact Or.inr (Or.inl (by simpa using h)))
    · exact Or.inl (by simp [scopeBlocked]; exact Or.inr (Or.inr (Or.inl (by simpa using h))))
    · exact Or.inl (by simp [scopeBlocked]; exact Or.inr (Or.inr (Or.inr (by simpa using h))))
    · exact Or.inr h
  | functionKey fid =>
    simp only [scopeCheck, checkFunction, Bool.or_eq_true, isPyKeyword,
      memRenameKeys_false, Bool.false_eq_true, false_or] at h
    rcases h with (((h | h) | h) | h)
    · exact Or.inl (by simp [scopeBlocked]; exact Or.inl (by simpa using h))
    · exact Or.inl (by simp [scopeBlocked]; exact Or.inr (Or.inl (by simpa using h)))
    · exact Or.inl (by simp [scopeBlocked]; exact Or.inr (Or.inr (Or.inl (by simpa using h))))
    · exact Or.inl (by simp [scopeBlocked]; exact Or.inr (Or.inr (Or.inr (by simpa using h))))
  | structKey sid =>
    simp only [scopeCheck, checkStruct, Bool.or_eq_true, isPyKeyword,
      memRenameKeys_false, Bool.false_eq_true, false_or] at h
    rcases h with ((((h | h) | h) | h) | h)
    · exact Or.inl (by simp [scopeBlocked]; exact Or.inl (by simpa using h))
    · exact Or.inl (by simp [scopeBlocked]; exact Or.inr (Or.inl (by simpa using h)))
    · exact Or.inl (by simp [scopeBlocked]; exact Or.inr (Or.inr (Or.inl (by simpa using h))))
    · exact Or.inl (by simp [scopeBlocked]; exact Or.inr (Or.inr (Or.inr (by simpa using h))))
    · exact Or.inr h
  | eventKey eid =>
    simp only [scopeCheck, checkEvent, Bool.or_eq_true, isPyKeyword,
      memRenameKeys_false, Bool.false_eq_true, false_or] at h
    rcases h with ((((h | h) | h) | h) | h)
    · exact Or.inl (by simp [scopeBlocked]; exact Or.inl (by simpa using h))
    · exact Or.inl (by simp [scopeBlocked]; exact Or.inr (Or.inl (by simpa using h)))
    · exact Or.inl (by simp [scopeBlocked]; exact Or.inr (Or.inr (Or.inl (by simpa using h))))
    · exact Or.inl (by simp [scopeBlocked]; exact Or.inr (Or.inr (Or.inr (by simpa using h))))
    · exact Or.inr h
  | errorKey eid =>
    simp only [scopeCheck, checkError, Bool.or_eq_true, isPyKeyword,
      memRenameKeys_false, Bool.false_eq_true, false_or] at h
    rcases h with ((((h | h) | h) | h) | h)
    · exact Or.inl (by simp [scopeBlocked]; exact Or.inl (by simpa using h))
    · exact Or.inl (by simp [scopeBlocked]; exact Or.inr (Or.inl (by simpa using h)))
    · exact Or.inl (by simp [scopeBlocked]; exact Or.inr (Or.inr (Or.inl (by simpa using h))))
    · exact Or.inl (by simp [scopeBlocked]; exact Or.inr (Or.inr (Or.inr (by simpa using h))))
    · exact Or.inr h
  | enumKey eid =>
    simp only [scopeCheck, checkEnum, Bool.or_eq_true, isPyKeyword,
      memRenameKeys_false, Bool.false_eq_true, false_or] at h
    rcases h with ((((h | h) | h) | h) | h)
    · exact Or.inl (by simp [scopeBlocked]; exact Or.inl (by simpa using h))
    · exact Or.inl (by simp [scopeBlocked]; exact Or.inr (Or.inl (by simpa using h)))
    · exact Or.inl (by simp [scopeBlocked]; exact Or.inr (Or.inr (Or.inl (by simpa using h))))
    · exact Or.inl (by simp [scopeBlocked]; exact Or.inr (Or.inr (Or.inr (by simpa using h))))
    · exact Or.inr h

/-- Completeness of the own-scope values test: an identifier already stored
in the selected scope table is rejected by the selected check. -/
lemma scopeCheck_of_mem_values (st : SanState) (k : ScopeKey) (s : String)
    (h : s ∈ tableValues (scopeTable st k)) : scopeCheck st k s = true := by
  cases k with
  | globalKey =>
    simp only [scopeTable] at h
    simp [scopeCheck, checkGlobal]
    tauto
  | contractKey cid =>
    simp only [scopeTable] at h
    simp [scopeCheck, checkContract]
    tauto
  | functionKey fid =>
    simp only [scopeTable] at h
    simp [scopeCheck, checkFunction]
    tauto
  | structKey sid =>
    simp only [scopeTable] at h
    simp [scopeCheck, checkStruct]
    tauto
  | eventKey eid =>
    simp only [scopeTable] at h
    simp [scopeCheck, checkEvent]
    tauto
  | errorKey eid =>
    simp only [scopeTable] at h
    simp [scopeCheck, checkError]
    tauto
  | enumKey eid =>
    simp only [scopeTable] at h
    simp [scopeCheck, checkEnum]
    tauto

/-- The scopes whose check has the dunder clause: contract, struct, event,
error and enum scope; global and function scope do not have it. -/
def dunderCheckedScope : ScopeKey → Prop
  | .contractKey _ => True
  | .structKey _ => True
  | .eventKey _ => True
  | .errorKey _ => True
  | .enumKey _ => True
  | .globalKey => False
  | .functionKey _ => False

/-- In a dunder-checked scope, an unescaped dunder candidate is rejected. -/
lemma scopeCheck_of_dunder (st : SanState) (k : ScopeKey) (s : String)
    (hk : dunderCheckedScope k) (h : isUnescapedDunder s = true) :
    scopeCheck st k s = true := by
  cases k with
  | globalKey => cases hk
  | functionKey fid => cases hk
  | contractKey cid => simp [scopeCheck, checkContract, h]
  | structKey sid => simp [scopeCheck, checkStruct, h]
  | eventKey eid => simp [scopeCheck, checkEvent, h]
  | errorKey eid => simp [scopeCheck, checkError, h]
  | enumKey eid => simp [scopeCheck, checkEnum, h]

lemma assocFind_assocSet (k : Nat) (t : List (Decl × String))
    (m : List (Nat × List (Decl × String))) :
    assocFind k (assocSet k t m) = t := by
  induction m with
  | nil => simp [assocSet, assocFind]
  | cons p rest ih =>
    by_cases hp : p.1 = k
    · simp [assocSet, hp, assocFind]
    · simp [assocSet, hp, assocFind, ih]

/-- Writing back the selected scope table and re-reading it round-trips. -/
lemma scopeTable_scopeUpdate (st : SanState) (k : ScopeKey)
    (t : List (Decl × String)) :
    scopeTable (scopeUpdate st k t) k = t := by
  cases k <;> simp [scopeTable, scopeUpdate, assocFind_assocSet]

lemma tableFind_mem_values {d : Decl} {t : List (Decl × String)} {n : String}
    (h : tableFind d t = some n) : n ∈ tableValues t := by
  induction t with
  | nil => cases h
  | cons p rest ih =>
    by_cases hp : p.1 = d
    · rw [tableFind, if_pos hp] at h
      cases h
      exact List.mem_cons_self _ _
    · rw [tableFind, if_neg hp] at h
      exact List.mem_cons_of_mem _ (ih h)

lemma tableFind_append {d : Decl} (t l : List (Decl × String)) :
    tableFind d (t ++ l) =
      match tableFind d t with
      | some x => some x
      | none => tableFind d l := by
  induction t with
  | nil => simp [tableFind]
  | cons p rest ih =>
    by_cases hp : p.1 = d
    · simp [tableFind, hp]
    · simp [tableFind, hp, ih]

lemma tableValues_append (t l : List (Decl × String)) :
    tableValues (t ++ l) = tableValues t ++ tableValues l := by
  simp [tableValues]

/-- Two distinct declarations cached in one table with duplicate-free
values have distinct stored identifiers. -/
lemma tableFind_nodup_values_ne {t : List (Decl × String)} {d1 d2 : Decl}
    {n1 n2 : String} (hnd : (tableValues t).Nodup)
    (h1 : tableFind d1 t = some n1) (h2 : tableFind d2 t = some n2)
    (hne : d1 ≠ d2) : n1 ≠ n2 := by
  induction t with
  | nil => cases h1
  | cons p rest ih =>
    have hnd' : (tableValues rest).Nodup := by
      simpa [tableValues] using hnd.of_cons
    by_cases e1 : p.1 = d1
    · rw [tableFind, if_pos e1] at h1
      cases h1
      have e2 : p.1 ≠ d2 := by rw [e1]; exact hne
      rw [tableFind, if_neg e2] at h2
      have hmem : n2 ∈ tableValues rest := tableFind_mem_values h2
      have hnot : p.2 ∉ tableValues rest := by
        have := hnd
        simp only [tableValues, List.map_cons, List.nodup_cons] at this
        simpa [tableValues] using this.1
      intro heq
      exact hnot (heq ▸ hmem)
    · rw [tableFind, if_neg e1] at h1
      by_cases e2 : p.1 = d2
      · rw [tableFind, if_pos e2] at h2
        cases h2
        have hmem : n1 ∈ tableValues rest := tableFind_mem_values h1
        have hnot : p.2 ∉ tableValues rest := by
          have := hnd
          simp only [tableValues, List.map_cons, List.nodup_cons] at this
          simpa [tableValues] using this.1
        intro heq
        rw [heq] at hmem
        exact hnot hmem
      · rw [tableFind, if_neg e2] at h2
        exact ih hnd' h1 h2

/-- The rename loop always returns an identifier the scope check accepts. -/
lemma freshName_check_false (st : SanState) (k : ScopeKey) (name : String) :
    scopeCheck st k (freshName st k name) = false :=
  escapeLoop_check_false (scopeCheck st k) (scopeBlocked st k)
    (scopeCheck_true_mem_or_dunder st k) _ name (by omega) (by omega)

/-- A freshly computed identifier is not among the values already stored in
the selected scope table. -/
lemma freshName_not_mem_values (st : SanState) (k : ScopeKey) (name : String) :
    freshName st k name ∉ tableValues (scopeTable st k) := by
  intro hmem
  have h := scopeCheck_of_mem_values st k _ hmem
  rw [freshName_check_false] at h
  cases h

/-- Case analysis of a successful `sanitizeName` call. -/
lemma sanitizeName_ok_cases {st : SanState} {d : Decl} {n : String}
    {st' : SanState} {k : ScopeKey} (hk : scopeKeyOf d = some k)
    (h : sanitizeName st d = .ok (n, st')) :
    (tableFind d (scopeTable st k) = some n ∧ st' = st) ∨
    (tableFind d (scopeTable st k) = none ∧ n = freshName st k d.name ∧
      st' = scopeUpdate st k (scopeTable st k ++ [(d, n)])) := by
  unfold sanitizeName at h
  split at h
  next heq =>
    exact absurd h (by simp)
  next k' heq =>
    rw [hk] at heq
    injection heq with heqk
    subst heqk
    split at h
    next m htf =>
      simp only [Except.ok.injEq, Prod.mk.injEq] at h
      exact Or.inl ⟨by rw [htf, h.1], h.2.symm⟩
    next htf =>
      simp only [Except.ok.injEq, Prod.mk.injEq] at h
      refine Or.inr ⟨htf, h.1.symm, ?_⟩
      rw [← h.2, h.1]

/-- After a successful call the declaration is cached with the returned
identifier in the scope table of the resulting state. -/
lemma sanitizeName_cached_after {st : SanState} {d : Decl} {n : String}
    {st' : SanState} {k : ScopeKey} (hk : scopeKeyOf d = some k)
    (h : sanitizeName st d = .ok (n, st')) :
    tableFind d (scopeTable st' k) = some n := by
  rcases sanitizeName_ok_cases hk h with ⟨htf, rfl⟩ | ⟨htf, hn, rfl⟩
  · exact htf
  · rw [scopeTable_scopeUpdate, tableFind_append, htf]
    simp [tableFind]

/-- The returned identifier is among the stored values afterwards. -/
lemma sanitizeName_mem_values {st : SanState} {d : Decl} {n : String}
    {st' : SanState} {k : ScopeKey} (hk : scopeKeyOf d = some k)
    (h : sanitizeName st d = .ok (n, st')) :
    n ∈ tableValues (scopeTable st' k) :=
  tableFind_mem_values (sanitizeName_cached_after hk h)

/-- Value evolution of the selected scope table across one call. -/
lemma sanitizeName_values_after {st : SanState} {d : Decl} {n : String}
    {st' : SanState} {k : ScopeKey} (hk : scopeKeyOf d = some k)
    (h : sanitizeName st d = .ok (n, st')) :
    tableValues (scopeTable st' k) = tableValues (scopeTable st k) ∨
      (tableValues (scopeTable st' k) = tableValues (scopeTable st k) ++ [n] ∧
        n ∉ tableValues (scopeTable st k)) := by
  rcases sanitizeName_ok_cases hk h with ⟨htf, rfl⟩ | ⟨htf, hn, rfl⟩
  · exact Or.inl rfl
  · refine Or.inr ⟨?_, ?_⟩
    · rw [scopeTable_scopeUpdate, tableValues_append]
      rfl
    · rw [hn]
      exact freshName_not_mem_values st k d.name

/-- Repeating a successful call gives the same identifier and state: the
second call hits the cache written (or already present) in the first. -/
lemma sanitizeName_idempotent {st : SanState} {d : Decl} {n : String}
    {st' : SanState} (h : sanitizeName st d = .ok (n, st')) :
    sanitizeName st' d = .ok (n, st') := by
  cases hk : scopeKeyOf d with
  | none =>
    unfold sanitizeName at h
    rw [hk] at h
    exact absurd h (by simp)
  | some k =>
    have hc := sanitizeName_cached_after hk h
    simp [sanitizeName, hk, hc]

/-- Uniqueness across two successive calls on distinct declarations of the
same scope, assuming the stored values of that scope's table are
duplicate-free (they are in every state reachable from `sanInit`, see
`sanitizeName_values_nodup`). -/
lemma sanitizeName_unique {st st1 st2 : SanState} {d1 d2 : Decl}
    {n1 n2 : String} {k : ScopeKey}
    (hk1 : scopeKeyOf d1 = some k) (hk2 : scopeKeyOf d2 = some k)
    (hne : d1 ≠ d2) (hnd : (tableValues (scopeTable st k)).Nodup)
    (h1 : sanitizeName st d1 = .ok (n1, st1))
    (h2 : sanitizeName st1 d2 = .ok (n2, st2)) : n1 ≠ n2 := by
  rcases sanitizeName_ok_cases hk1 h1 with ⟨htf1, hst1⟩ | ⟨htf1, hn1, hst1⟩
  · subst hst1
    have hmem1 : n1 ∈ tableValues (scopeTable st1 k) := tableFind_mem_values htf1
    rcases sanitizeName_ok_cases hk2 h2 with ⟨htf2, _⟩ | ⟨htf2, hn2, _⟩
    · exact tableFind_nodup_values_ne hnd htf1 htf2 hne
    · have hfresh := freshName_not_mem_values st1 k d2.name
      intro heq
      apply hfresh
      rw [← hn2, ← heq]
      exact hmem1
  · subst hst1
    rcases sanitizeName_ok_cases hk2 h2 with ⟨htf2, _⟩ | ⟨htf2, hn2, _⟩
    · rw [scopeTable_scopeUpdate, tableFind_append] at htf2
      cases htf2' : tableFind d2 (scopeTable st k) with
      | some m =>
        rw [htf2'] at htf2
        have hm : m = n2 := by simpa using htf2
        rw [hm] at htf2'
        have hmem2 : n2 ∈ tableValues (scopeTable st k) := tableFind_mem_values htf2'
        have hfresh := freshName_not_mem_values st k d1.name
        intro heq
        rw [← heq] at hmem2
        rw [hn1] at hmem2
        exact hfresh hmem2
      | none =>
        rw [htf2'] at htf2
        simp [tableFind, hne] at htf2
    · have hmem1 : n1 ∈
          tableValues (scopeTable (scopeUpdate st k (scopeTable st k ++ [(d1, n1)])) k) :=
        sanitizeName_mem_values hk1 h1
      have hfresh :=
        freshName_not_mem_values (scopeUpdate st k (scopeTable st k ++ [(d1, n1)])) k d2.name
      intro heq
      apply hfresh
      rw [← hn2, ← heq]
      exact hmem1

/-- One call keeps the selected scope table's stored values
duplicate-free. -/
lemma sanitizeName_values_nodup {st : SanState} {d : Decl} {n : String}
    {st' : SanState} {k : ScopeKey} (hk : scopeKeyOf d = some k)
    (hnd : (tableValues (scopeTable st k)).Nodup)
    (h : sanitizeName st d = .ok (n, st')) :
    (tableValues (scopeTable st' k)).Nodup := by
  rcases sanitizeName_values_after hk h with heq | ⟨heq, hnmem⟩
  · rw [heq]
    exact hnd
  · rw [heq]
    simp [List.nodup_append, hnd, hnmem]

/-- In a scope whose check carries the dunder clause, a call from a state
whose stored values contain no unescaped dunder returns a non-dunder
identifier and preserves that property of the stored values. -/
lemma sanitizeName_no_dunder {st : SanState} {d : Decl} {n : String}
    {st' : SanState} {k : ScopeKey} (hk : scopeKeyOf d = some k)
    (hdk : dunderCheckedScope k)
    (hval : ∀ v ∈ tableValues (scopeTable st k), isUnescapedDunder v = false)
    (h : sanitizeName st d = .ok (n, st')) :
    isUnescapedDunder n = false ∧
      ∀ v ∈ tableValues (scopeTable st' k), isUnescapedDunder v = false := by
  have hnd : isUnescapedDunder n = false := by
    rcases sanitizeName_ok_cases hk h with ⟨htf, rfl⟩ | ⟨htf, hn, rfl⟩
    · exact hval n (tableFind_mem_values htf)
    · by_contra hcon
      rw [Bool.not_eq_false] at hcon
      have := scopeCheck_of_dunder st k n hdk hcon
      rw [hn, freshName_check_false] at this
      cases this
  refine ⟨hnd, ?_⟩
  rcases sanitizeName_values_after hk h with heq | ⟨heq, _⟩
  · rw [heq]
    exact hval
  · rw [heq]
    intro v hv
    rcases List.mem_append.mp hv with hv1 | hv2
    · exact hval v hv1
    · rw [List.mem_singleton.mp hv2]
      exact hnd

/-! ## Revert-site scan

Embedding of the scan over the decoded instruction table in
`TypeGenerator.generate_contract_template` (pytypes_generator.py lines
391-419).  The collaborating objects are passed as functions: `resolve`
models `ReferenceResolver.resolve_source_file_id` for the contract's
compilation unit (`none` models the caught `KeyError`), and `envelop`
models `self.__interval_trees[path].envelop(start, end)`, each returned
node abstracted to its subtree depth, whether it is a `FunctionCall` whose
parent is a `RevertStatement`, and whether its called function is an
`ErrorDefinition`.  The scan state is the contract's entry of
`__contracts_revert_index` (a set of program counters, kept as a
duplicate-free list); an `error` value models the uncaught
`AssertionError` of the scan. -/

structure NodeInfo where
  astTreeDepth : Nat
  isFunctionCallWithRevertParent : Bool
  functionCalledIsErrorDef : Bool
deriving DecidableEq

/-- Lookup `pc_map[pc]` (`pc in pc_map` when `some`). -/
def lookupPc : List (Nat × Int × Int × Int × Option String) → Nat →
    Option (Int × Int × Int × Option String)
  | [], _ => none
  | e :: rest, pc => if e.1 = pc then some (e.2.1, e.2.2.1, e.2.2.2.1, e.2.2.2.2)
      else lookupPc rest pc

/-- Stable insertion used to model Python `sorted(..., key=ast_tree_depth)`. -/
def insertByDepth (n : NodeInfo) : List NodeInfo → List NodeInfo
  | [] => [n]
  | m :: rest =>
    if m.astTreeDepth ≤ n.astTreeDepth then m :: insertByDepth n rest
    else n :: m :: rest

/-- Stable sort by subtree depth, as in
`sorted([...], key=lambda n: n.ast_tree_depth)`. -/
def sortByDepth (l : List NodeInfo) : List NodeInfo :=
  l.foldl (fun acc n => insertByDepth n acc) []

/-- One iteration of the `for pc, op, size, argument in parsed_opcodes`
loop restricted to its body (lines 392-419): a non-`REVERT` opcode, a
program counter absent from the source map, a file id of `-1`, an
unresolvable file id, an empty envelop result and a shallowest node that
is not a revert-invoked function call all leave the state unchanged; a
revert-invoked call whose target is not an error definition fails the
`assert`; otherwise the program counter is added to the revert set. -/
def revertScanStep (resolve : Int → Option String)
    (envelop : String → Int → Int → List NodeInfo)
    (pcMap : List (Nat × Int × Int × Int × Option String))
    (st : Except String (List Nat))
    (entry : Nat × String × Nat × Option Nat) : Except String (List Nat) :=
  match st with
  | .error e => .error e
  | .ok pcs =>
    if entry.2.1 = "REVERT" then
      match lookupPc pcMap entry.1 with
      | none => .ok pcs
      | some (s, e, fid, _) =>
        if fid = -1 then .ok pcs
        else
          match resolve fid with
          | none => .ok pcs
          | some path =>
            match sortByDepth (envelop path s e) with
            | [] => .ok pcs
            | node :: _ =>
              if node.isFunctionCallWithRevertParent then
                if node.functionCalledIsErrorDef then
                  .ok (if entry.1 ∈ pcs then pcs else pcs ++ [entry.1])
                else .error "AssertionError"
              else .ok pcs
    else .ok pcs

/-- The whole scan over the parsed opcode table. -/
def revertScan (resolve : Int → Option String)
    (envelop : String → Int → Int → List NodeInfo)
    (pcMap : List (Nat × Int × Int × Int × Option String))
    (ops : List (Nat × String × Nat × Option Nat)) : Except String (List Nat) :=
  ops.foldl (revertScanStep resolve envelop pcMap) (.ok [])

/-! ## Metadata trailer registration

Embedding of lines 421-427 of `generate_contract_template`: for a
non-empty deployed bytecode hex string, the last 106 characters are
decoded with `bytes.fromhex` (`error "ValueError"` when they are not pure
hex of even length; solc bytecode hex has no whitespace, which
`bytes.fromhex` would additionally tolerate), the decode must give exactly
53 bytes, the trailer must be new, and the contract is then recorded in
`__contracts_by_metadata_index`.  The index is an insertion-ordered list
of (trailer bytes, fully-qualified name). -/

def hexPairsToBytes? : List Char → Option (List Nat)
  | [] => some []
  | [_] => none
  | a :: b :: rest =>
    match hexDigitVal? a, hexDigitVal? b, hexPairsToBytes? rest with
    | some hi, some lo, some tail => some ((hi * 16 + lo) :: tail)
    | _, _, _ => none

/-- Models `bytes.fromhex` on whitespace-free input. -/
def bytesFromHex? (s : String) : Option (List Nat) :=
  hexPairsToBytes? s.data

/-- Models the Python slice `s[-106:]` (the whole string when shorter). -/
def takeLastChars (s : String) (n : Nat) : String :=
  String.mk (s.data.drop (s.data.length - n))

/-- Embedding of the metadata block of `generate_contract_template`
(lines 421-427). -/
def registerContractMetadata (deployedObject : String)
    (index : List (List Nat × String)) (fqn : String) :
    Except String (List (List Nat × String)) :=
  if 0 < deployedObject.length then
    match bytesFromHex? (takeLastChars deployedObject 106) with
    | none => .error "ValueError"
    | some metadata =>
      if metadata.length = 53 then
        if index.any (fun p => p.1 = metadata) then .error "AssertionError"
        else .ok (index ++ [(metadata, fqn)])
      else .error "AssertionError"
  else .ok index

/-! ## Unit scheduler

Embedding of the generation loop of `TypeGenerator.generate_types`
(pytypes_generator.py lines 1443-1497).  The compilation-unit dependency
graph is a finite digraph over unit names.  Two collaborators are
parameters: `simpleCycles` models `networkx.simple_cycles` on the current
residual graph, and `setIterOrder` models the iteration order of a Python
`frozenset` of unit names (`for source in cycle`), which CPython does not
specify; `cycleListOrder` models `sorted(generated_cycles)` over
frozensets.  The file-system path of a unit is identified with its name
(one source-unit name per path), so `paths_to_source_unit_names[path]`
is the singleton of the unit and every scheduled unit is generated.  The
`visited` set of the source is dead (written, never read) and is not
modelled. -/

structure SchedGraph where
  nodes : List String
  edges : List (String × String)
deriving DecidableEq

/-- `graph.in_degree(n)`: number of edges into `n`. -/
def inDeg (g : SchedGraph) (n : String) : Nat :=
  (g.edges.filter (fun e => e.2 == n)).length

/-- `graph.out_edges(n)`. -/
def outEdgesOf (g : SchedGraph) (n : String) : List (String × String) :=
  g.edges.filter (fun e => e.1 == n)

/-- `graph.remove_nodes_from([n])`: drop the node and its incident edges. -/
def removeNode (g : SchedGraph) (n : String) : SchedGraph :=
  ⟨g.nodes.filter (fun m => !(m == n)),
   g.edges.filter (fun e => !(e.1 == n) && !(e.2 == n))⟩

/-- Pop the smallest string (leftmost on ties), modelling `heapq.heappop`. -/
def popMinStr : List String → Option (String × List String)
  | [] => none
  | x :: xs =>
    match popMinStr xs with
    | none => some (x, [])
    | some (m, rest) =>
      if charListLt m.data x.data then some (m, x :: rest) else some (x, xs)

/-- The inner `while len(sources) > 0` frontier loop (lines 1451-1463):
pop the smallest unit, generate it, push each successor whose in-degree is
exactly 1 (its only remaining dependency is the unit being removed), then
remove the unit from the graph.  The fuel is an artifact of totality; the
callers pass `nodes + edges + 1`, which bounds the number of pops. -/
def frontierPhase : Nat → List String → SchedGraph → List String →
    List String × SchedGraph
  | 0, _, g, out => (out, g)
  | fuel + 1, heap, g, out =>
    match popMinStr heap with
    | none => (out, g)
    | some (source, heap') =>
      let pushes := (outEdgesOf g source).filterMap
        (fun e => if inDeg g e.2 = 1 then some e.2 else none)
      frontierPhase fuel (heap' ++ pushes) (removeNode g source) (out ++ [source])

/-- The closed-cycle test (lines 1473-1477): no member has an in-edge from
outside the cycle. -/
def closedCycle (g : SchedGraph) (c : List String) : Bool :=
  c.all (fun node =>
    (g.edges.filter (fun e => e.2 == node)).all (fun e => c.contains e.1))

/-- Append a cycle to the warning set if set-new, modelling
`cycles.add(frozenset(cycle))`. -/
def addCycleIfNew (cycles : List (Finset String)) (c : Finset String) :
    List (Finset String) :=
  if c ∈ cycles then cycles else cycles ++ [c]

/-- The `for cycle in nx.simple_cycles(graph)` loop (lines 1467-1480):
record every found cycle for the warning and collect the closed ones into
`generated_cycles`, deduplicated as frozensets. -/
def collectGenerated (g : SchedGraph) :
    List (List String) → List (Finset String) → List (List String) →
    List (Finset String) × List (List String)
  | [], cycles, gen => (cycles, gen)
  | c :: rest, cycles, gen =>
    let cycles' := addCycleIfNew cycles c.toFinset
    if gen.any (fun d => d.toFinset == c.toFinset) then
      collectGenerated g rest cycles' gen
    else if closedCycle g c then collectGenerated g rest cycles' (gen ++ [c])
    else collectGenerated g rest cycles' gen

/-- The `for cycle in sorted(generated_cycles): for source in cycle` flush
(lines 1482-1487): generate each member in the frozenset's iteration order
and remove it from the graph. -/
def flushCycles (setIterOrder : List String → List String)
    (groups : List (List String)) (g : SchedGraph) (out : List String) :
    List String × SchedGraph :=
  groups.foldl
    (fun acc c =>
      (setIterOrder c).foldl
        (fun acc2 source => (acc2.1 ++ [source], removeNode acc2.2 source)) acc)
    (out, g)

/-- The outer `while len(graph) > 0` loop (lines 1443-1491) with the
no-progress break, threading the emitted-unit order and the warning cycle
set.  The fuel is an artifact of totality; `schedule` passes one more than
the node count, which the progress condition bounds. -/
def schedLoop (simpleCycles : SchedGraph → List (List String))
    (setIterOrder : List String → List String)
    (cycleListOrder : List (List String) → List (List String)) :
    Nat → SchedGraph → Nat → List (Finset String) → List String →
    List String × List (Finset String)
  | 0, _, _, cycles, out => (out, cycles)
  | fuel + 1, g, prevLen, cycles, out =>
    if g.nodes.length = 0 then (out, cycles)
    else
      let fp := frontierPhase (g.nodes.length + g.edges.length + 1)
        (g.nodes.filter (fun n => inDeg g n == 0)) g out
      let cg := collectGenerated fp.2 (simpleCycles fp.2) cycles []
      let fc := flushCycles setIterOrder (cycleListOrder cg.2) fp.2 fp.1
      if fc.2.nodes.length = prevLen then (fc.1, cg.1)
      else schedLoop simpleCycles setIterOrder cycleListOrder fuel fc.2
        fc.2.nodes.length cg.1 fc.1

/-- Embedding of the scheduling part of `generate_types`: returns the
generation order of the units and the warning cycle list (`cycles`; the
single `logger.warning` at lines 1493-1497 prints one entry per element
when it is non-empty). -/
def schedule (simpleCycles : SchedGraph → List (List String))
    (setIterOrder : List String → List String)
    (cycleListOrder : List (List String) → List (List String))
    (g : SchedGraph) : List String × List (Finset String) :=
  schedLoop simpleCycles setIterOrder cycleListOrder (g.nodes.length + 1) g
    g.nodes.length [] []

/-- The 3-unit cyclic graph of the cycle-closure scenario:
`A → B → C → A` and no other node or edge. -/
def cycleGraph3 : SchedGraph :=
  ⟨["A", "B", "C"], [("A", "B"), ("B", "C"), ("C", "A")]⟩

/-! ## Scheduler lemmas for the closed-cycle scenario -/

lemma flushPairFoldl (l : List String) : ∀ (out : List String) (g : SchedGraph),
    l.foldl (fun acc2 source => (acc2.1 ++ [source], removeNode acc2.2 source)) (out, g)
      = (out ++ l, l.foldl removeNode g) := by
  induction l with
  | nil => intro out g; simp
  | cons x xs ih =>
    intro out g
    simp only [List.foldl_cons]
    rw [ih]
    simp

lemma flushCycles_singleton (so : List String → List String) (c : List String)
    (g : SchedGraph) (out : List String) :
    flushCycles so [c] g out = (out ++ so c, (so c).foldl removeNode g) := by
  unfold flushCycles
  simp only [List.foldl_cons, List.foldl_nil]
  exact flushPairFoldl (so c) out g

lemma mem_removeNodes (l : List String) : ∀ (g : SchedGraph) (n : String),
    n ∈ (l.foldl removeNode g).nodes ↔ n ∈ g.nodes ∧ n ∉ l := by
  induction l with
  | nil => intro g n; simp
  | cons x xs ih =>
    intro g n
    simp only [List.foldl_cons]
    rw [ih]
    simp only [removeNode, List.mem_filter, List.mem_cons]
    constructor
    · rintro ⟨⟨hg, hx⟩, hxs⟩
      refine ⟨hg, ?_⟩
      rintro (rfl | hmem)
      · simp at hx
      · exact hxs hmem
    · rintro ⟨hg, hnx⟩
      refine ⟨⟨hg, ?_⟩, fun hmem => hnx (Or.inr hmem)⟩
      simp only [Bool.not_eq_eq_eq_not, Bool.not_true, beq_eq_false_iff_ne, ne_eq]
      intro heq
      exact hnx (Or.inl heq)

lemma collectGenerated_single (g : SchedGraph) (c : List String)
    (hclosed : closedCycle g c = true) :
    collectGenerated g [c] [] [] = ([c.toFinset], [c]) := by
  unfold collectGenerated
  simp [addCycleIfNew, hclosed]
  rfl

lemma closedCycle_cycleGraph3 {c : List String} (h : c.Perm ["A", "B", "C"]) :
    closedCycle cycleGraph3 c = true := by
  have hA : "A" ∈ c := h.mem_iff.mpr (by simp)
  have hB : "B" ∈ c := h.mem_iff.mpr (by simp)
  have hC : "C" ∈ c := h.mem_iff.mpr (by simp)
  unfold closedCycle
  rw [List.all_eq_true]
  intro node hnode
  have hm : node ∈ ["A", "B", "C"] := h.mem_iff.mp hnode
  simp only [List.mem_cons, List.not_mem_nil, or_false] at hm
  rcases hm with rfl | rfl | rfl
  · show (cycleGraph3.edges.filter (fun e => e.2 == "A")).all
      (fun e => c.contains e.1) = true
    simp [cycleGraph3]
    exact hC
  · show (cycleGraph3.edges.filter (fun e => e.2 == "B")).all
      (fun e => c.contains e.1) = true
    simp [cycleGraph3]
    exact hA
  · show (cycleGraph3.edges.filter (fun e => e.2 == "C")).all
      (fun e => c.contains e.1) = true
    simp [cycleGraph3]
    exact hB

/-- The full scheduler run on the closed 3-cycle, for any admissible
behaviour of the collaborators: the frontier contributes nothing, the one
closed cycle is flushed as a single group in the set-iteration order, and
the warning set holds exactly that cycle. -/
lemma schedule_cycleGraph3 (sc : SchedGraph → List (List String))
    (so : List String → List String)
    (lo : List (List String) → List (List String)) (c : List String)
    (hsc : sc cycleGraph3 = [c]) (hperm : c.Perm ["A", "B", "C"])
    (hso : (so c).Perm c) (hlo : lo [c] = [c]) :
    schedule sc so lo cycleGraph3 = (so c, [c.toFinset]) := by
  have hclosed := closedCycle_cycleGraph3 hperm
  have hfp : frontierPhase
      (cycleGraph3.nodes.length + cycleGraph3.edges.length + 1)
      (cycleGraph3.nodes.filter (fun n => inDeg cycleGraph3 n == 0)) cycleGraph3 []
      = ([], cycleGraph3) := by decide
  have hcg : collectGenerated cycleGraph3 (sc cycleGraph3) [] []
      = ([c.toFinset], [c]) := by
    rw [hsc]
    exact collectGenerated_single _ _ hclosed
  have hfc : flushCycles so (lo [c]) cycleGraph3 []
      = (so c, (so c).foldl removeNode cycleGraph3) := by
    rw [hlo, flushCycles_singleton]
    simp
  have hnodes : ((so c).foldl removeNode cycleGraph3).nodes = [] := by
    rw [List.eq_nil_iff_forall_not_mem]
    intro n hn
    rw [mem_removeNodes] at hn
    rcases hn with ⟨hng, hnl⟩
    exact hnl ((hso.trans hperm).mem_iff.mpr hng)
  unfold schedule
  show schedLoop sc so lo (3 + 1) cycleGraph3 3 [] [] = (so c, [c.toFinset])
  rw [schedLoop]
  rw [if_neg (show ¬(cycleGraph3.nodes.length = 0) by decide)]
  simp only [hfp, hcg, hfc, hnodes]
  rw [if_neg (show ¬(([] : List String).length = 3) by decide)]
  rw [show (([] : List String).length = 0) from rfl]
  rw [schedLoop]
  rw [hnodes]
  rw [if_pos (show (([] : List String).length = 0) from rfl)]

/-! ## Concrete declarations used by the claim theorems -/

/-- A source-unit-level (global-scope) declaration named `foo`. -/
def gFooDecl : Decl := ⟨0, "foo", .sourceUnit⟩

/-- A second, distinct global-scope declaration also named `foo`. -/
def gFoo1Decl : Decl := ⟨1, "foo", .sourceUnit⟩

/-- A member of contract 0 named `foo`. -/
def mFooDecl : Decl := ⟨2, "foo", .contract 0⟩

/-- A member of contract 0 named `list`. -/
def listMemberDecl : Decl := ⟨3, "list", .contract 0⟩

/-- A member of contract 0 named `List`. -/
def capListMemberDecl : Decl := ⟨4, "List", .contract 0⟩

/-- A parameter of function 0 named `__foo__`. -/
def dunderParamDecl : Decl := ⟨5, "__foo__", .paramListOfFunction 0⟩

/-- A member of contract 0 named `x`. -/
def xMemberDecl : Decl := ⟨6, "x", .contract 0⟩

/-- The sanitizer state after `gFooDecl` has been sanitized from a fresh
state: `foo` is recorded in the global rename table. -/
def sanStAfterGlobalFoo : SanState :=
  ⟨[(gFooDecl, "foo")], [], [], [], [], [], []⟩

/-- The sanitizer state after `gFooDecl` and `gFoo1Decl` have been
sanitized in that order from a fresh state. -/
def sanStAfterTwoGlobalFoos : SanState :=
  ⟨[(gFooDecl, "foo"), (gFoo1Decl, "foo_")], [], [], [], [], [], []⟩

/-- The sanitizer state after `xMemberDecl` has been sanitized from a
fresh state. -/
def sanStAfterXMember : SanState :=
  ⟨[], [(0, [(xMemberDecl, "x")])], [], [], [], [], []⟩

/-- The simple-cycles oracle of the closed-3-cycle counterexample: the one
cycle of the residual graph, the empty list once the graph is empty. -/
def schedOracleCycles : SchedGraph → List (List String) := fun g =>
  if g.nodes.isEmpty then [] else [["A", "B", "C"]]

/-- A frozenset iteration order CPython may present for
`frozenset({"A", "B", "C"})`: B, A, C. -/
def schedOracleSetOrder : List String → List String := fun _ => ["B", "A", "C"]

/-- Sorting a one-element list of cycles is the identity. -/
def schedOracleListOrder : List (List String) → List (List String) := fun l => l

/-! ## Claim theorems -/

/-- Claim C1 (code bug): sanitizing a global declaration named `foo` and
then a contract member named `foo` yields `foo` for BOTH: the claim says
the member must be blocked by the already-chosen global rename, but
`_check_contract` tests `name in set(self.__global_renames)` -- the dict
KEYS (declaration objects), not `.values()` as `_check_global` does -- so
the test never matches a string.  The last two conjuncts exhibit the
divergence on the state holding the global rename: `_check_global` rejects
`foo` while `_check_contract` accepts it. -/
theorem c1_global_rename_collision_eval :
    (sanitizeName sanInit gFooDecl).map (fun p => p.1) = .ok "foo" ∧
    ((sanitizeName sanInit gFooDecl).bind (fun p => sanitizeName p.2 mFooDecl)).map
        (fun p => p.1) = .ok "foo" ∧
    checkGlobal sanStAfterGlobalFoo "foo" = true ∧
    checkContract sanStAfterGlobalFoo 0 "foo" = false := by
  decide

/-- Claim C2: parsing the disassembly `PUSH1 0x05 ADD STOP` yields three
instructions at program counters 0, 2 and 3; `PUSH1` occupies two bytes
and its literal operand `0x05` is consumed rather than counted. -/
theorem c2_parse_opcodes_push1_add_stop :
    parseOpcodes "PUSH1 0x05 ADD STOP" =
      some [(0, "PUSH1", 2, some 5), (2, "ADD", 1, none), (3, "STOP", 1, none)] ∧
    (parseOpcodes "PUSH1 0x05 ADD STOP").map opcodePcs = some [0, 2, 3] := by
  decide

/-- Claim C3 counterexample: two global declarations named `foo` are
sanitized inside one unit to `foo` and `foo_`; after
`clear_global_renames` (run between units), the second declaration is
re-sanitized to `foo`, so the same declaration received two different
identifiers within one run. -/
theorem c3_cross_unit_rename_differs :
    ((sanitizeName sanInit gFooDecl).bind (fun p1 =>
      (sanitizeName p1.2 gFoo1Decl).bind (fun p2 =>
        (sanitizeName (clearGlobalRenames p2.2) gFoo1Decl).map
          (fun p3 => (p1.1, p2.1, p3.1))))) = .ok ("foo", "foo_", "foo") ∧
    ("foo_" : String) ≠ "foo" := by
  decide

/-- Claim C3 (amended): sanitize is idempotent per declaration while its
scope's rename table persists (the global table is cleared between units),
and two successive calls on distinct declarations of the same scope, from
a state whose stored values are duplicate-free, never return the same
identifier; duplicate-freeness is preserved by every call. -/
theorem c3_idempotent_cached_and_unique_in_scope :
    (∀ (st : SanState) (d : Decl) (n : String) (st' : SanState),
        sanitizeName st d = .ok (n, st') → sanitizeName st' d = .ok (n, st')) ∧
    (∀ (st st1 st2 : SanState) (d1 d2 : Decl) (n1 n2 : String) (k : ScopeKey),
        scopeKeyOf d1 = some k → scopeKeyOf d2 = some k → d1 ≠ d2 →
        (tableValues (scopeTable st k)).Nodup →
        sanitizeName st d1 = .ok (n1, st1) →
        sanitizeName st1 d2 = .ok (n2, st2) → n1 ≠ n2) ∧
    (∀ (st : SanState) (d : Decl) (n : String) (st' : SanState) (k : ScopeKey),
        scopeKeyOf d = some k → (tableValues (scopeTable st k)).Nodup →
        sanitizeName st d = .ok (n, st') →
        (tableValues (scopeTable st' k)).Nodup) :=
  ⟨fun _ _ _ _ h => sanitizeName_idempotent h,
   fun _ _ _ _ _ _ _ _ hk1 hk2 hne hnd h1 h2 =>
     sanitizeName_unique hk1 hk2 hne hnd h1 h2,
   fun _ _ _ _ _ hk hnd h => sanitizeName_values_nodup hk hnd h⟩

theorem c3_idempotent_unique_witness :
    sanitizeName sanStAfterGlobalFoo gFooDecl = .ok ("foo", sanStAfterGlobalFoo) ∧
    ("foo" : String) ≠ "foo_" := by
  constructor
  · exact c3_idempotent_cached_and_unique_in_scope.1 sanInit gFooDecl "foo"
      sanStAfterGlobalFoo (by decide)
  · exact c3_idempotent_cached_and_unique_in_scope.2.1 sanInit sanStAfterGlobalFoo
      sanStAfterTwoGlobalFoos gFooDecl gFoo1Decl "foo" "foo_" .globalKey rfl rfl
      (by decide) (by decide) (by decide) (by decide)

/-- Claim C4 counterexample: a contract member named `list` with the
reserved word `List` in scope sanitizes to `list`, not `list_`: reserved
word matching is case sensitive and `list` itself is neither reserved nor
a Python keyword. -/
theorem c4_list_member_not_underscored :
    (sanitizeName sanInit listMemberDecl).map (fun p => p.1) = .ok "list" ∧
    (Except.ok "list" : Except String String) ≠ .ok "list_" := by
  decide

/-- Claim C4 (amended): the member named `list` sanitizes to `list`
unchanged, while a member actually named `List` sanitizes to `List_`. -/
theorem c4_list_member_sanitized_unchanged :
    (sanitizeName sanInit listMemberDecl).map (fun p => p.1) = .ok "list" ∧
    (sanitizeName sanInit capListMemberDecl).map (fun p => p.1) = .ok "List_" := by
  decide

/-- Claim C5 counterexample: in function (parameter) scope the dunder test
is absent from `_check_function`, so a parameter named `__foo__` is
returned as the unescaped dunder `__foo__`. -/
theorem c5_function_scope_dunder_returned :
    (sanitizeName sanInit dunderParamDecl).map (fun p => p.1) = .ok "__foo__" ∧
    isUnescapedDunder "__foo__" = true := by
  decide

/-- Claim C5 (amended): in contract, struct, event, error and enum scopes
(the scopes whose check has the dunder clause -- function scope does not),
sanitize never returns an unescaped dunder name, and the stored values of
the scope table stay dunder-free. -/
theorem c5_dunder_blocked_outside_function_scope
    (st : SanState) (d : Decl) (n : String) (st' : SanState) (k : ScopeKey)
    (hk : scopeKeyOf d = some k) (hdk : dunderCheckedScope k)
    (hval : ∀ v ∈ tableValues (scopeTable st k), isUnescapedDunder v = false)
    (h : sanitizeName st d = .ok (n, st')) :
    isUnescapedDunder n = false ∧
      ∀ v ∈ tableValues (scopeTable st' k), isUnescapedDunder v = false :=
  sanitizeName_no_dunder hk hdk hval h

theorem c5_dunder_blocked_witness :
    isUnescapedDunder "x" = false ∧
      ∀ v ∈ tableValues (scopeTable sanStAfterXMember (.contractKey 0)),
        isUnescapedDunder v = false :=
  c5_dunder_blocked_outside_function_scope sanInit xMemberDecl "x"
    sanStAfterXMember (.contractKey 0) rfl trivial (by decide) (by decide)

/-- Claim C6: mapping an array type: unbounded gives `List[T]`, bounded
with length at most 32 gives `ListN[T]`, and length above 32 gives
`Annotated[List[T], Length(N)]`; in particular `array(uint256, None)`,
`array(uint256, 40)` and `array(bool, 5)` map as in the spec examples. -/
theorem c6_array_type_mapping :
    (∀ (base : Ty) (rt : Bool),
        mapTypeStr rt (.array base none) = "List[" ++ mapTypeStr rt base ++ "]") ∧
    (∀ (base : Ty) (rt : Bool) (n : Nat), n ≤ 32 →
        mapTypeStr rt (.array base (some n)) =
          "List" ++ toString n ++ "[" ++ mapTypeStr rt base ++ "]") ∧
    (∀ (base : Ty) (rt : Bool) (n : Nat), 32 < n →
        mapTypeStr rt (.array base (some n)) =
          "Annotated[List[" ++ mapTypeStr rt base ++ "], Length(" ++ toString n ++ ")]") ∧
    mapTypeStr true (.array (.uintTy 256) none) = "List[uint256]" ∧
    mapTypeStr true (.array (.uintTy 256) (some 40)) =
      "Annotated[List[uint256], Length(40)]" ∧
    mapTypeStr true (.array .boolTy (some 5)) = "List5[bool]" := by
  refine ⟨fun base rt => rfl, fun base rt n hn => ?_, fun base rt n hn => ?_,
    ?_, ?_, ?_⟩
  · simp [mapTypeStr, hn]
  · have hn' : ¬(n ≤ 32) := by omega
    simp [mapTypeStr, hn']
  · decide
  · decide
  · decide

theorem c6_array_type_mapping_witness :
    mapTypeStr true (.array .boolTy (some 5)) = "List5[bool]" ∧
    mapTypeStr true (.array (.uintTy 256) (some 40)) =
      "Annotated[List[uint256], Length(40)]" :=
  ⟨c6_array_type_mapping.2.1 .boolTy true 5 (by decide),
   c6_array_type_mapping.2.2.1 (.uintTy 256) true 40 (by decide)⟩

/-- Claim C7: the getter synthesized for a public struct-typed state
variable takes no index parameters; when no direct member is an array or
mapping the return list is the whole struct type, otherwise it is exactly
the non-container members' mapped types, and with at least two of them the
return type string is the corresponding multi-value tuple. -/
theorem c7_struct_getter_returns (name : String) (containerName : Option String)
    (members : List (String × Ty × String)) (ts : String) :
    (getterForStructVar name containerName members ts).1 = [] ∧
    ((∀ m ∈ members, isMappingOrArray m.2.1 = false) →
      (getterForStructVar name containerName members ts).2 =
        [(qualifiedTypeName name containerName, ts)]) ∧
    ((∃ m ∈ members, isMappingOrArray m.2.1 = true) →
      (getterForStructVar name containerName members ts).2 =
        members.filterMap memberReturnEntry) ∧
    ((∃ m ∈ members, isMappingOrArray m.2.1 = true) →
      1 < (members.filterMap memberReturnEntry).length →
      returnsStrOf (getterForStructVar name containerName members ts).2 =
        "Tuple[" ++
          String.intercalate ", "
            ((members.filterMap memberReturnEntry).map (fun r => r.1)) ++ "]") := by
  have hlen_iff := filterMap_memberReturnEntry_length_eq_iff members
  have hbranch : (∃ m ∈ members, isMappingOrArray m.2.1 = true) →
      (getterForStructVar name containerName members ts).2 =
        members.filterMap memberReturnEntry := by
    rintro ⟨m, hm, hcont⟩
    unfold getterForStructVar getStructReturnList
    rw [if_neg]
    intro heq
    have hall := hlen_iff.mp heq.symm
    rw [hall m hm] at hcont
    cases hcont
  refine ⟨rfl, ?_, hbranch, ?_⟩
  · intro hall
    unfold getterForStructVar getStructReturnList
    rw [if_pos (hlen_iff.mpr hall).symm]
  · intro hex hlen
    rw [hbranch hex]
    unfold returnsStrOf
    rw [if_neg (by omega), if_neg (by omega)]

theorem c7_struct_getter_returns_witness :
    (getterForStructVar "S" none
        [("a", .uintTy 256, "uint256"), ("b", .boolTy, "bool")] "struct S").2 =
      [("S", "struct S")] ∧
    (getterForStructVar "T" none
        [("a", .array (.uintTy 256) none, "uint256[]"), ("b", .boolTy, "bool")]
        "struct T").2 = [("bool", "bool")] := by
  constructor
  · exact (c7_struct_getter_returns "S" none
      [("a", .uintTy 256, "uint256"), ("b", .boolTy, "bool")] "struct S").2.1
      (by decide)
  · rw [(c7_struct_getter_returns "T" none
      [("a", .array (.uintTy 256) none, "uint256[]"), ("b", .boolTy, "bool")]
      "struct T").2.2.1 ⟨_, List.mem_cons_self _ _, rfl⟩]
    decide

/-- Claim C8 counterexample: under the admissible frozenset iteration
order B, A, C (a permutation of the cycle members, which CPython does not
guarantee sorted), the closed 3-cycle is flushed in the order B, A, C --
not in sorted order -- while still forming one group naming `{A, B, C}`. -/
theorem c8_cycle_flush_order_not_sorted :
    schedule schedOracleCycles schedOracleSetOrder schedOracleListOrder
        cycleGraph3 =
      (["B", "A", "C"], [({"A", "B", "C"} : Finset String)]) ∧
    (["B", "A", "C"] : List String) ≠ ["A", "B", "C"] ∧
    (["B", "A", "C"] : List String).Perm ["A", "B", "C"] := by
  refine ⟨by decide, by decide, by decide⟩

/-- Claim C8 (amended): on the closed 3-cycle A -> B -> C -> A with no
external dependents, for every admissible behaviour of the collaborators
(`networkx.simple_cycles` returning the one cycle in any rotation, the
frozenset iterating its members in any order, and `sorted` of the
one-element cycle set being the identity), the scheduler emits nothing
from the empty zero-in-degree frontier, flushes all three units as the
single group given by the set-iteration order, and records exactly one
warning entry naming `{A, B, C}`. -/
theorem c8_closed_cycle_flushed_as_group
    (sc : SchedGraph → List (List String)) (so : List String → List String)
    (lo : List (List String) → List (List String)) (c : List String)
    (hsc : sc cycleGraph3 = [c]) (hperm : c.Perm ["A", "B", "C"])
    (hso : (so c).Perm c) (hlo : lo [c] = [c]) :
    schedule sc so lo cycleGraph3 = (so c, [({"A", "B", "C"} : Finset String)]) ∧
    (so c).Perm ["A", "B", "C"] := by
  have h1 := schedule_cycleGraph3 sc so lo c hsc hperm hso hlo
  have hfin : c.toFinset = ({"A", "B", "C"} : Finset String) := by
    rw [List.toFinset_eq_of_perm _ _ hperm]
    decide
  rw [hfin] at h1
  exact ⟨h1, hso.trans hperm⟩

theorem c8_closed_cycle_flushed_witness :
    schedule (fun _ => [["A", "B", "C"]]) (fun l => l) (fun l => l) cycleGraph3 =
      (["A", "B", "C"], [({"A", "B", "C"} : Finset String)]) ∧
    (["A", "B", "C"] : List String).Perm ["A", "B", "C"] :=
  c8_closed_cycle_flushed_as_group (fun _ => [["A", "B", "C"]]) (fun l => l)
    (fun l => l) ["A", "B", "C"] rfl (List.Perm.refl _) (List.Perm.refl _) rfl

/-- Claim C9: a `REVERT` instruction whose source-map entry carries file id
-1 is skipped silently by the revert-site scan: the step leaves the scan
state unchanged (no error is raised, no program counter is recorded), and
the scan of any table continues as if the instruction were absent. -/
theorem c9_revert_without_source_skipped
    (resolve : Int → Option String)
    (envelop : String → Int → Int → List NodeInfo)
    (pcMap : List (Nat × Int × Int × Int × Option String))
    (st : Except String (List Nat)) (entry : Nat × String × Nat × Option Nat)
    (s e : Int) (j : Option String)
    (hop : entry.2.1 = "REVERT")
    (hmap : lookupPc pcMap entry.1 = some (s, e, -1, j)) :
    revertScanStep resolve envelop pcMap st entry = st ∧
    ∀ rest : List (Nat × String × Nat × Option Nat),
      (entry :: rest).foldl (revertScanStep resolve envelop pcMap) st =
        rest.foldl (revertScanStep resolve envelop pcMap) st := by
  have hstep : revertScanStep resolve envelop pcMap st entry = st := by
    cases st with
    | error err => rfl
    | ok pcs => simp [revertScanStep, hop, hmap]
  exact ⟨hstep, fun rest => by rw [List.foldl_cons, hstep]⟩

theorem c9_revert_skip_witness :
    revertScanStep (fun _ => none) (fun _ _ _ => [])
        [(7, -1, -1, -1, none)] (.ok []) (7, "REVERT", 1, none) = .ok [] :=
  (c9_revert_without_source_skipped (fun _ => none) (fun _ _ _ => [])
    [(7, -1, -1, -1, none)] (.ok []) (7, "REVERT", 1, none)
    (-1) (-1) none rfl rfl).1

/-- Claim C10: for a contract with non-empty deployed bytecode,
registration of the metadata trailer succeeds exactly when the final 106
hex characters decode to exactly 53 bytes that differ from every
previously recorded trailer, and a duplicate trailer makes the run abort
with an assertion failure. -/
theorem c10_metadata_trailer_checks (obj : String)
    (index : List (List Nat × String)) (fqn : String) (hne : 0 < obj.length) :
    ((∃ m, bytesFromHex? (takeLastChars obj 106) = some m ∧ m.length = 53 ∧
        ∀ p ∈ index, p.1 ≠ m) ↔
      ∃ idx, registerContractMetadata obj index fqn = .ok idx) ∧
    (∀ m, bytesFromHex? (takeLastChars obj 106) = some m → m.length = 53 →
      (∃ p ∈ index, p.1 = m) →
      registerContractMetadata obj index fqn = .error "AssertionError") := by
  constructor
  · constructor
    · rintro ⟨m, hm, hlen, hnotin⟩
      refine ⟨index ++ [(m, fqn)], ?_⟩
      have hany : index.any (fun p => decide (p.1 = m)) = false := by
        rw [List.any_eq_false]
        intro p hp
        simp [hnotin p hp]
      simp [registerContractMetadata, hne, hm, hlen, hany]
    · rintro ⟨idx, hok⟩
      unfold registerContractMetadata at hok
      rw [if_pos hne] at hok
      split at hok
      · exact absurd hok (by simp)
      next m hbf =>
        split at hok
        next hlen =>
          split at hok
          next hany => exact absurd hok (by simp)
          next hany =>
            refine ⟨m, hbf, hlen, fun p hp heq => ?_⟩
            exact hany (by rw [List.any_eq_true]; exact ⟨p, hp, by simp [heq]⟩)
        next hlen => exact absurd hok (by simp)
  · intro m hm hlen hdup
    have hany : index.any (fun p => decide (p.1 = m)) = true := by
      rw [List.any_eq_true]
      rcases hdup with ⟨p, hp, heq⟩
      exact ⟨p, hp, by simp [heq]⟩
    simp [registerContractMetadata, hne, hm, hlen, hany]

theorem c10_metadata_trailer_witness :
    (∃ idx, registerContractMetadata (String.mk (List.replicate 106 'a')) []
        "u:C" = .ok idx) ∧
    registerContractMetadata (String.mk (List.replicate 106 'a'))
        [(List.replicate 53 170, "u:C")] "u:D" = .error "AssertionError" := by
  constructor
  · exact (c10_metadata_trailer_checks (String.mk (List.replicate 106 'a')) []
      "u:C" (by decide)).1.mp
      ⟨List.replicate 53 170, by decide, by decide, by simp⟩
  · exact (c10_metadata_trailer_checks (String.mk (List.replicate 106 'a'))
      [(List.replicate 53 170, "u:C")] "u:D" (by decide)).2
      (List.replicate 53 170) (by decide) (by decide)
      ⟨(List.replicate 53 170, "u:C"), by simp, rfl⟩
